import Mathlib

/-!
Verification of the idea-inbox CLI (src/idea_inbox/cli.py, openalex.py)
against its design specification.

The Python code is shallowly embedded: each relevant Python function
becomes a Lean definition with the same name.  Wall-clock datetimes are
modelled as integers (a linear time scale); the standard-library
functions `datetime.fromisoformat`, `datetime.isoformat` and
`datetime.strftime` are external collaborators and are modelled as the
fields of a `Clock` parameter.  Python string helpers (`strip`, `lower`,
`splitlines`, the regex classes used by `slugify`) are modelled over
their ASCII behaviour; code points are compared numerically.
-/

namespace IdeaInbox

/-- Python whitespace (ASCII part): the characters matched by the regex
`\s` and stripped by `str.strip()` — space (32), TAB through CR (9–13),
and the file/group/record/unit separators FS through US (28–31). -/
def isPySpace (c : Char) : Bool :=
  c.toNat = 32 || (9 ≤ c.toNat && c.toNat ≤ 13) || (28 ≤ c.toNat && c.toNat ≤ 31)

/-- Characters in the regex class `[a-z0-9]` (code points 97–122 and 48–57). -/
def isLowerDigit (c : Char) : Bool :=
  (97 ≤ c.toNat && c.toNat ≤ 122) || (48 ≤ c.toNat && c.toNat ≤ 57)

/-- The regex class `[a-z0-9\s_-]` kept by the first substitution in `slugify`
(95 is an underscore, 45 a hyphen). -/
def keepChar (c : Char) : Bool :=
  isLowerDigit c || isPySpace c || c.toNat = 95 || c.toNat = 45

/-- The regex class `[\s_]` collapsed to a hyphen by the second substitution. -/
def spaceUnd (c : Char) : Bool :=
  isPySpace c || c.toNat = 95

/-- The hyphen class `[-]` of the third substitution and of `strip("-")`. -/
def isDash (c : Char) : Bool :=
  c.toNat = 45

/-- ASCII model of `str.lower()`: map code points 65–90 to 97–122. -/
def pyToLower (c : Char) : Char :=
  if 65 ≤ c.toNat ∧ c.toNat ≤ 90 then Char.ofNat (c.toNat + 32) else c

/-- ASCII model of `str.isalnum()` on a single character. -/
def pyIsAlnum (c : Char) : Bool :=
  (65 ≤ c.toNat && c.toNat ≤ 90) || (97 ≤ c.toNat && c.toNat ≤ 122) ||
    (48 ≤ c.toNat && c.toNat ≤ 57)

/-- Worker for `collapseRuns`: the flag records whether the previous character
was part of a run of the collapsed class. -/
def collapseRunsGo (p : Char → Bool) (r : Char) : List Char → Bool → List Char
  | [], _ => []
  | c :: cs, inRun =>
    if p c then
      (if inRun then collapseRunsGo p r cs true else r :: collapseRunsGo p r cs true)
    else c :: collapseRunsGo p r cs false

/-- Model of `re.sub("<class>+", r, s)` for a single-character replacement:
every maximal run of characters of class `p` becomes the single character
`r`. -/
def collapseRuns (p : Char → Bool) (r : Char) (l : List Char) : List Char :=
  collapseRunsGo p r l false

/-- Strip characters of class `p` from both ends, as Python `str.strip`. -/
def dropEnds (p : Char → Bool) (l : List Char) : List Char :=
  ((l.dropWhile p).reverse.dropWhile p).reverse

/-- Model of `str.strip()` (default whitespace). -/
def pyStrip (s : String) : String :=
  String.mk (dropEnds isPySpace s.data)

/-- Model of `str.rstrip()` (default whitespace, right end only). -/
def pyRstrip (s : String) : String :=
  String.mk ((s.data.reverse.dropWhile isPySpace).reverse)

/-- The first five steps of `slugify` from cli.py, on character lists:
strip + lower (`s.strip().lower()`), erase everything outside
`[a-z0-9\s_-]`, collapse `[\s_]+` runs to `-`, collapse `-+` runs, strip
hyphens from both ends. -/
def preSlug (l : List Char) : List Char :=
  dropEnds isDash
    (collapseRuns isDash '-'
      (collapseRuns spaceUnd '-'
        (((dropEnds isPySpace l).map pyToLower).filter keepChar)))

/-- `slugify` from cli.py, on character lists: after the `preSlug`
substitutions, an empty result yields the literal "idea", otherwise
truncate to `max_len` and strip hyphens again. -/
def slugifyL (l : List Char) (max_len : Nat := 60) : List Char :=
  if preSlug l = [] then "idea".data else dropEnds isDash ((preSlug l).take max_len)

/-- Characters that can appear in a slug: the class `[a-z0-9-]`. -/
def slugChar (c : Char) : Bool :=
  isLowerDigit c || isDash c

/-- Shape of every `slugify` output: nonempty, at most 60 characters,
only lowercase ASCII alphanumerics and hyphens, no two adjacent hyphens,
and no hyphen at either end. -/
structure GoodSlug (l : List Char) : Prop where
  ne : l ≠ []
  len : l.length ≤ 60
  chars : ∀ c ∈ l, slugChar c = true
  chain : List.Chain' (fun a b => ¬(isDash a = true ∧ isDash b = true)) l
  headOk : ∀ c, l.head? = some c → isDash c = false
  lastOk : ∀ c, l.getLast? = some c → isDash c = false

/-- `slugify(s, max_len=60)` from cli.py. -/
def slugify (s : String) (max_len : Nat := 60) : String :=
  String.mk (slugifyL s.data max_len)

/-- Line boundaries of `str.splitlines()` (ASCII part): LF, VT, FF, CR
(10–13) and the file/group/record separators FS, GS, RS (28–30).
CRLF is handled as a single boundary by `pySplitlinesNE`. -/
def isPyLineBreak (c : Char) : Bool :=
  (10 ≤ c.toNat && c.toNat ≤ 13) || (28 ≤ c.toNat && c.toNat ≤ 30)

/-- Model of `str.splitlines()` on nonempty input (worker of
`pySplitlines`): split at every `isPyLineBreak` character, with CRLF
counting as one boundary. -/
def pySplitlinesNE : List Char → List Char → List (List Char)
  | [], acc => [acc.reverse]
  | '\r' :: '\n' :: cs, acc =>
    acc.reverse :: (if cs = [] then [] else pySplitlinesNE cs [])
  | c :: cs, acc =>
    if isPyLineBreak c then
      acc.reverse :: (if cs = [] then [] else pySplitlinesNE cs [])
    else pySplitlinesNE cs (c :: acc)

/-- Model of `str.splitlines()`: a trailing line break produces no empty
final element, and the empty string has no lines. -/
def pySplitlines (l : List Char) : List (List Char) :=
  if l = [] then [] else pySplitlinesNE l []

/-- JSON values, as produced by `json.loads` (numbers restricted to
integers; the state file only ever stores strings, booleans and null). -/
inductive Json where
  | null
  | bool (b : Bool)
  | num (n : Int)
  | str (s : String)
  | arr (elems : List Json)
  | obj (fields : List (String × Json))

/-- Python truthiness (`bool(v)`) of a JSON value. -/
def pyTruthy : Json → Bool
  | Json.null => false
  | Json.bool b => b
  | Json.num n => decide (n ≠ 0)
  | Json.str s => decide (s ≠ "")
  | Json.arr elems => !elems.isEmpty
  | Json.obj fields => !fields.isEmpty

/-- `dict.get(k)` on a parsed JSON object. -/
def jsonLookup (fields : List (String × Json)) (k : String) : Option Json :=
  (fields.find? (fun kv => kv.1 = k)).map (fun kv => kv.2)

/-- Read a string-or-null field of the state JSON object into `Option String`
(the state file is only ever written by `State.save`, which stores these
fields as strings or null). -/
def strField (fields : List (String × Json)) (k : String) : Option String :=
  match jsonLookup fields k with
  | some (Json.str s) => some s
  | _ => none


/-- External datetime collaborators: `datetime.fromisoformat` (returning
`none` where the Python call raises), `isoformat` (the `iso` helper of
cli.py), and the two `strftime` formats used by `cmd_commit`
(`%Y-%m-%d_%H%M%S` and `%f`). -/
structure Clock where
  parse : String → Option Int
  iso : Int → String
  stamp : Int → String
  frac : Int → String

/-- Python truthiness of an optional string: `None` and `""` are falsy. -/
def strTruthy : Option String → Bool
  | none => false
  | some s => decide (s ≠ "")

/-- The `State` dataclass of cli.py (all fields, with its defaults). -/
structure State where
  pending : Bool := false
  pending_until : Option String := none
  started_at : Option String := none
  user_id : Option String := none
  last_file : Option String := none
  last_idea_text : Option String := none
  enrich_pending : Bool := false
  enrich_until : Option String := none
  enrich_user_id : Option String := none
  enrich_file : Option String := none
  enrich_idea_text : Option String := none
deriving DecidableEq, Repr

/-- `State.load`: the state file is `none` when missing, otherwise its
text; `loads` models `json.loads`, returning `none` where it raises.
Only the `json.loads` call is guarded by try/except in the source, so a
file whose contents parse to a non-object JSON value reaches
`data.get(...)` and raises `AttributeError`. -/
def State.load (loads : String → Option Json) (file : Option String) :
    Except String State :=
  match file with
  | none => Except.ok {}
  | some txt =>
    match loads txt with
    | none => Except.ok {}
    | some (Json.obj fields) =>
      Except.ok
        { pending := pyTruthy ((jsonLookup fields "pending").getD (Json.bool false))
          pending_until := strField fields "pending_until"
          started_at := strField fields "started_at"
          user_id := strField fields "user_id"
          last_file := strField fields "last_file"
          last_idea_text := strField fields "last_idea_text"
          enrich_pending :=
            pyTruthy ((jsonLookup fields "enrich_pending").getD (Json.bool false))
          enrich_until := strField fields "enrich_until"
          enrich_user_id := strField fields "enrich_user_id"
          enrich_file := strField fields "enrich_file"
          enrich_idea_text := strField fields "enrich_idea_text" }
    | some _ => Except.error "AttributeError"

/-- The expiry test shared verbatim by `is_expired` and
`enrich_is_expired`: a pending slot with a truthy expiry string is
expired when the string fails to parse or when `at >= until`. -/
def slotExpired (C : Clock) (pending : Bool) (untl : Option String) (t : Int) : Bool :=
  if !pending || !strTruthy untl then false
  else
    match untl with
    | none => false
    | some s =>
      match C.parse s with
      | none => true
      | some u => decide (u ≤ t)

/-- `State.is_expired(at)` on the capture slot. -/
def State.is_expired (C : Clock) (st : State) (t : Int) : Bool :=
  slotExpired C st.pending st.pending_until t

/-- `State.enrich_is_expired(at)` on the enrichment slot. -/
def State.enrich_is_expired (C : Clock) (st : State) (t : Int) : Bool :=
  slotExpired C st.enrich_pending st.enrich_until t

/-- `ensure_not_expired(state, at)`: lazily reset either slot that has
expired, clearing all of its fields. -/
def ensure_not_expired (C : Clock) (st : State) (t : Int) : State :=
  let st :=
    if st.pending && st.is_expired C t then
      { st with pending := false, pending_until := none, started_at := none,
                user_id := none }
    else st
  let st :=
    if st.enrich_pending && st.enrich_is_expired C t then
      { st with enrich_pending := false, enrich_until := none,
                enrich_user_id := none, enrich_file := none,
                enrich_idea_text := none }
    else st
  st

/-- Result of one command invocation: the in-memory state at the end, the
state written to the state file by `save` (if any), the idea file written
(path and contents, if any), the printed lines, and the exit code. -/
structure CmdOut where
  newState : State
  savedState : Option State
  written : Option (String × String) := none
  lines : List String
  exit : Int
deriving DecidableEq, Repr

/-- `cmd_start`: `t0` is the `now_local()` used for lazy expiry, `t1` the
one used as `started`. -/
def cmd_start (C : Clock) (st0 : State) (t0 t1 : Int) (timeout : Int)
    (user_id : String) : CmdOut :=
  let st := ensure_not_expired C st0 t0
  let untl := t1 + timeout
  let st := { st with pending := true, started_at := some (C.iso t1),
                      pending_until := some (C.iso untl),
                      user_id := some user_id }
  { newState := st, savedState := some st,
    lines := ["OK pending_until=" ++ C.iso untl], exit := 0 }

/-- `cmd_cancel`: clear both slots unconditionally; report whether
anything was pending beforehand. -/
def cmd_cancel (C : Clock) (st0 : State) (t0 : Int) : CmdOut :=
  let st := ensure_not_expired C st0 t0
  let had_any := st.pending || st.enrich_pending
  let st := { st with pending := false, pending_until := none, started_at := none,
                      user_id := none, enrich_pending := false, enrich_until := none,
                      enrich_user_id := none, enrich_file := none,
                      enrich_idea_text := none }
  { newState := st, savedState := some st,
    lines := [if had_any then "OK cancelled" else "OK no_pending"], exit := 0 }

/-- `cmd_enrich_start`. -/
def cmd_enrich_start (C : Clock) (st0 : State) (t0 t1 : Int) (timeout : Int)
    (user_id file idea_text : String) : CmdOut :=
  let st := ensure_not_expired C st0 t0
  let untl := t1 + timeout
  let st := { st with enrich_pending := true, enrich_until := some (C.iso untl),
                      enrich_user_id := some user_id, enrich_file := some file,
                      enrich_idea_text := some idea_text }
  { newState := st, savedState := some st,
    lines := ["OK enrich_pending_until=" ++ C.iso untl], exit := 0 }

/-- `cmd_enrich_cancel`: note that when nothing is pending the function
returns before `state.save` is called. -/
def cmd_enrich_cancel (C : Clock) (st0 : State) (t0 : Int) : CmdOut :=
  let st := ensure_not_expired C st0 t0
  if !st.enrich_pending then
    { newState := st, savedState := none,
      lines := ["OK no_enrich_pending"], exit := 0 }
  else
    let st := { st with enrich_pending := false, enrich_until := none,
                        enrich_user_id := none, enrich_file := none,
                        enrich_idea_text := none }
    { newState := st, savedState := some st,
      lines := ["OK enrich_cancelled"], exit := 0 }

/-- Value printed by Python for an optional string (f-string of `None`). -/
def optStr : Option String → String
  | none => "None"
  | some s => s

/-- `cmd_status`: read, lazily expire, save, and print both slots. -/
def cmd_status (C : Clock) (st0 : State) (t0 : Int) : CmdOut :=
  let st := ensure_not_expired C st0 t0
  { newState := st, savedState := some st,
    lines :=
      (["CAPTURE_PENDING " ++ (if st.pending then "true" else "false")] ++
        (if st.pending then
          ["CAPTURE_STARTED_AT " ++ optStr st.started_at,
           "CAPTURE_PENDING_UNTIL " ++ optStr st.pending_until,
           "CAPTURE_USER_ID " ++ optStr st.user_id]
         else []) ++
        ["ENRICH_PENDING " ++ (if st.enrich_pending then "true" else "false")] ++
        (if st.enrich_pending then
          ["ENRICH_PENDING_UNTIL " ++ optStr st.enrich_until,
           "ENRICH_USER_ID " ++ optStr st.enrich_user_id,
           "ENRICH_FILE " ++ optStr st.enrich_file]
         else []) ++
        (if strTruthy st.last_file then ["LAST_FILE " ++ optStr st.last_file] else []) ++
        (if strTruthy st.last_idea_text then
          ["LAST_IDEA_LEN " ++ toString (optStr st.last_idea_text).length]
         else [])),
    exit := 0 }

/-- `title_basis` of `cmd_commit`: the first line of the stripped text,
or the literal "idea" when the text is blank after stripping. -/
def titleBasis (text : String) : String :=
  if pyStrip text = "" then "idea"
  else String.mk ((pySplitlines (pyStrip text).data).headD [])

/-- The front-matter lines assembled by `build_markdown`. -/
def fmLines (C : Clock) (created : Int) (user_id idea_id : String) : List String :=
  ["---",
   "id: " ++ idea_id,
   "created: " ++ C.iso created,
   "source: telegram",
   "type: idea",
   "telegram_user_id: " ++ user_id,
   "---",
   ""]

/-- `build_markdown(created, user_id, text, idea_id)`. -/
def build_markdown (C : Clock) (created : Int) (user_id text idea_id : String) :
    String :=
  String.intercalate "\n" (fmLines C created user_id idea_id) ++ (pyRstrip text ++ "\n")

/-- The owner check that makes `cmd_commit` fail with `wrong_user`: both
ids truthy (non-empty, non-null) and different. -/
def OwnerMismatch (st : State) (user_id : String) : Prop :=
  strTruthy st.user_id = true ∧ user_id ≠ "" ∧ st.user_id ≠ some user_id

instance (st : State) (user_id : String) : Decidable (OwnerMismatch st user_id) := by
  unfold OwnerMismatch; infer_instance

/-- `cmd_commit`: `t0` is the `now_local()` used for lazy expiry, `tc`
the `created` timestamp; `ideas_dir` is the vault directory. -/
def cmd_commit (C : Clock) (ideas_dir : String) (st0 : State) (t0 tc : Int)
    (user_id text : String) : CmdOut :=
  let st := ensure_not_expired C st0 t0
  if !st.pending then
    { newState := st, savedState := none, lines := ["ERR not_pending"], exit := 2 }
  else if OwnerMismatch st user_id then
    { newState := st, savedState := none, lines := ["ERR wrong_user"], exit := 3 }
  else
    let title_basis := titleBasis text
    let slug := slugify title_basis
    let filename := C.stamp tc ++ "_" ++ slug ++ ".md"
    let idea_id := C.iso tc ++ "-" ++ C.frac tc
    let out_path := ideas_dir ++ "/" ++ filename
    let content := build_markdown C tc user_id text idea_id
    let st := { st with pending := false, pending_until := none, started_at := none,
                        user_id := none, last_file := some out_path,
                        last_idea_text := some text }
    { newState := st, savedState := some st, written := some (out_path, content),
      lines := ["OK saved", "FILE " ++ out_path,
                "TITLE " ++ String.mk ((pyStrip title_basis).data.take 120)],
      exit := 0 }

/-- The state-handling subcommands of the CLI (those that load and may
save the state file). -/
inductive Cmd where
  | start (timeout : Int) (user_id : String)
  | cancel
  | status
  | commit (user_id : String) (text : String)
  | enrichStart (timeout : Int) (user_id : String) (file : String) (idea_text : String)
  | enrichCancel

/-- Dispatch of `main` restricted to the state-handling subcommands. -/
def runCmd (C : Clock) (ideas_dir : String) (st : State) (t0 t1 : Int) :
    Cmd → CmdOut
  | Cmd.start timeout uid => cmd_start C st t0 t1 timeout uid
  | Cmd.cancel => cmd_cancel C st t0
  | Cmd.status => cmd_status C st t0
  | Cmd.commit uid text => cmd_commit C ideas_dir st t0 t1 uid text
  | Cmd.enrichStart timeout uid file idea_text =>
      cmd_enrich_start C st t0 t1 timeout uid file idea_text
  | Cmd.enrichCancel => cmd_enrich_cancel C st t0

/-- A bibliographic record returned by `openalex.search` (the `Ref`
dataclass of openalex.py). -/
structure Ref where
  title : String
  year : Option Int
  venue : Option String
  doi : Option String
  url : Option String
  authors : List String
  type : Option String
deriving DecidableEq, Repr

/-- The local filtering loop of `cmd_refs`: drop books and book chapters,
and drop records with neither a DOI, a URL, nor a venue. -/
def refsFilter (refs : List Ref) : List Ref :=
  refs.filter (fun r =>
    !(r.type == some "book" || r.type == some "book-chapter") &&
      (strTruthy r.doi || strTruthy r.url || strTruthy r.venue))

/-- The records `cmd_refs` outputs: the filtered list truncated to the limit. -/
def cmd_refs_select (limit : Nat) (refs : List Ref) : List Ref :=
  (refsFilter refs).take limit

/-- The formal parameters of `openalex.search` as defined in openalex.py
(`query` positional, `per_page`, `mailto`). -/
def openalexSearchParams : List String :=
  ["query", "per_page", "mailto"]

/-- The arguments `cmd_refs` passes to `openalex_search` in cli.py
(`args.query` positional, then the keywords `per_page`, `mailto`,
`sort`, `from_year`). -/
def cmdRefsCallArgs : List String :=
  ["query", "per_page", "mailto", "sort", "from_year"]

/-- The condition under which the spec says a slot must be lazily reset,
corrected for the code: the stored expiry string is present AND
non-empty, and either fails to parse or has already been reached. -/
def ExpiredCond (C : Clock) (untl : Option String) (t : Int) : Prop :=
  ∃ s, untl = some s ∧ s ≠ "" ∧
    (C.parse s = none ∨ ∃ u, C.parse s = some u ∧ u ≤ t)

/-- Capture slot inactive implies its fields are null. -/
def CapInactiveNull (st : State) : Prop :=
  st.pending = false →
    st.pending_until = none ∧ st.started_at = none ∧ st.user_id = none

/-- Enrichment slot inactive implies its fields are null. -/
def EnrichInactiveNull (st : State) : Prop :=
  st.enrich_pending = false →
    st.enrich_until = none ∧ st.enrich_user_id = none ∧
      st.enrich_file = none ∧ st.enrich_idea_text = none

/-- Active capture slot carries timestamps with the expiry strictly after
the start (both being renderings of instants under the given clock). -/
def CapStrict (C : Clock) (st : State) : Prop :=
  st.pending = true →
    ∃ ts tu, st.started_at = some (C.iso ts) ∧
      st.pending_until = some (C.iso tu) ∧ ts < tu

/-- The data-model invariant of spec section 3. -/
def SlotInv (C : Clock) (st : State) : Prop :=
  CapInactiveNull st ∧ EnrichInactiveNull st ∧ CapStrict C st

/-- Positivity of the timeout arguments carried by a command. -/
def TimeoutsPos : Cmd → Prop
  | Cmd.start timeout _ => 1 ≤ timeout
  | Cmd.enrichStart timeout _ _ _ => 1 ≤ timeout
  | _ => True

/-- When a command invocation actually reaches `state.save`, in terms of
the lazily-expired state it operates on. -/
def SavesBack (c : Cmd) (st : State) : Prop :=
  match c with
  | Cmd.commit uid _ => st.pending = true ∧ ¬ OwnerMismatch st uid
  | Cmd.enrichCancel => st.enrich_pending = true
  | _ => True

/-- Decimal digit-string parser over the character list (structural, so
that witness goals evaluate inside the kernel). -/
def digitParse (s : String) : Option Int :=
  if s.data ≠ [] ∧ s.data.all (fun c => 48 ≤ c.toNat && c.toNat ≤ 57) then
    some (s.data.foldl (fun n c => 10 * n + ((c.toNat : Int) - 48)) 0)
  else none

/-- A concrete clock for witnesses: instants rendered and parsed as
decimal numerals. -/
def testClock : Clock :=
  { parse := digitParse, iso := fun t => toString t,
    stamp := fun t => toString t, frac := fun t => toString t }

/-- A unary rendering of instants, used where a proved round trip with
its parser is needed. -/
def unaryIso (t : Int) : String :=
  if t < 0 then String.mk ('-' :: List.replicate (-t).toNat 'a')
  else String.mk (List.replicate t.toNat 'a')

/-- Parser inverting `unaryIso`. -/
def unaryParse (s : String) : Option Int :=
  match s.data with
  | '-' :: cs =>
    if cs ≠ [] ∧ cs.all (fun c => c = 'a') then some (-(cs.length : Int)) else none
  | cs => if cs.all (fun c => c = 'a') then some ((cs.length : Int)) else none

/-- Clock over the unary rendering. -/
def unaryClock : Clock :=
  { parse := unaryParse, iso := unaryIso,
    stamp := fun _ => "2025-01-01_000000", frac := fun _ => "000000" }

/-- A state with a capture pending for user u1 until instant 100. -/
def stPend : State :=
  { pending := true, pending_until := some "100", started_at := some "50",
    user_id := some "u1" }

/-- A book record (to be dropped by the refs filter). -/
def bookRef : Ref :=
  { title := "Some Book", year := some 2001, venue := some "Press",
    doi := none, url := none, authors := ["A"], type := some "book" }

/-- A record with only a title (to be dropped by the refs filter). -/
def bareRef : Ref :=
  { title := "Bare", year := none, venue := none, doi := none, url := none,
    authors := [], type := some "article" }

/-- A journal article with a DOI (kept by the refs filter). -/
def articleRef : Ref :=
  { title := "Article", year := some 2020, venue := some "Journal",
    doi := some "10.1/x", url := none, authors := ["B"], type := some "article" }

/-- A model of `json.loads` defined on the single input used by the C7
counterexample: the text "[]" parses to an empty JSON array. -/
def loadsArr : String → Option Json :=
  fun s => if s = "[]" then some (Json.arr []) else none

/-! ### Helper lemmas on lazy expiry -/

theorem ensure_capture_cleared (C : Clock) (st : State) (t : Int)
    (h : (st.pending && st.is_expired C t) = true) :
    (ensure_not_expired C st t).pending = false ∧
    (ensure_not_expired C st t).pending_until = none ∧
    (ensure_not_expired C st t).started_at = none ∧
    (ensure_not_expired C st t).user_id = none := by
  unfold ensure_not_expired
  simp only [State.is_expired] at h
  simp only [State.is_expired, State.enrich_is_expired, h, if_true]
  split <;> simp

theorem ensure_capture_kept (C : Clock) (st : State) (t : Int)
    (h : (st.pending && st.is_expired C t) = false) :
    (ensure_not_expired C st t).pending = st.pending ∧
    (ensure_not_expired C st t).pending_until = st.pending_until ∧
    (ensure_not_expired C st t).started_at = st.started_at ∧
    (ensure_not_expired C st t).user_id = st.user_id := by
  unfold ensure_not_expired
  simp only [State.is_expired] at h
  simp only [State.is_expired, State.enrich_is_expired, h, Bool.false_eq_true, if_false]
  split <;> simp

theorem ensure_enrich_cleared (C : Clock) (st : State) (t : Int)
    (h : (st.enrich_pending && st.enrich_is_expired C t) = true) :
    (ensure_not_expired C st t).enrich_pending = false ∧
    (ensure_not_expired C st t).enrich_until = none ∧
    (ensure_not_expired C st t).enrich_user_id = none ∧
    (ensure_not_expired C st t).enrich_file = none ∧
    (ensure_not_expired C st t).enrich_idea_text = none := by
  unfold ensure_not_expired
  simp only [State.enrich_is_expired] at h
  simp only [State.is_expired, State.enrich_is_expired]
  split <;> simp only [h, if_true] <;> simp

theorem ensure_enrich_kept (C : Clock) (st : State) (t : Int)
    (h : (st.enrich_pending && st.enrich_is_expired C t) = false) :
    (ensure_not_expired C st t).enrich_pending = st.enrich_pending ∧
    (ensure_not_expired C st t).enrich_until = st.enrich_until ∧
    (ensure_not_expired C st t).enrich_user_id = st.enrich_user_id ∧
    (ensure_not_expired C st t).enrich_file = st.enrich_file ∧
    (ensure_not_expired C st t).enrich_idea_text = st.enrich_idea_text := by
  unfold ensure_not_expired
  simp only [State.enrich_is_expired] at h
  simp only [State.is_expired, State.enrich_is_expired]
  split <;> simp only [h, Bool.false_eq_true, if_false] <;> simp

theorem ensure_last_kept (C : Clock) (st : State) (t : Int) :
    (ensure_not_expired C st t).last_file = st.last_file ∧
    (ensure_not_expired C st t).last_idea_text = st.last_idea_text := by
  unfold ensure_not_expired
  dsimp only
  split <;> split <;> simp

theorem slotExpired_iff (C : Clock) (untl : Option String) (t : Int) :
    slotExpired C true untl t = true ↔ ExpiredCond C untl t := by
  unfold slotExpired ExpiredCond
  cases hu : untl with
  | none => simp [strTruthy]
  | some s =>
    by_cases hs : s = ""
    · subst hs
      simp [strTruthy]
    · cases hps : C.parse s with
      | none => simp [strTruthy, hs, hps]
      | some u => simp [strTruthy, hs, hps]

theorem slotExpired_congr (C : Clock) {p1 p2 : Bool} {u1 u2 : Option String}
    (t : Int) (hp : p1 = p2) (hu : u1 = u2) :
    slotExpired C p1 u1 t = slotExpired C p2 u2 t := by
  rw [hp, hu]

theorem ensure_eq_self_of_not (C : Clock) (s : State) (t : Int)
    (hc : (s.pending && s.is_expired C t) = false)
    (he : (s.enrich_pending && s.enrich_is_expired C t) = false) :
    ensure_not_expired C s t = s := by
  unfold ensure_not_expired
  simp only [State.is_expired, State.enrich_is_expired] at hc he
  simp only [State.is_expired, State.enrich_is_expired, hc, Bool.false_eq_true,
    if_false, he]

theorem ensure_not_expired_idem (C : Clock) (st : State) (t : Int) :
    ensure_not_expired C (ensure_not_expired C st t) t = ensure_not_expired C st t := by
  have hc : ((ensure_not_expired C st t).pending &&
      (ensure_not_expired C st t).is_expired C t) = false := by
    by_cases h : (st.pending && st.is_expired C t) = true
    · have := ensure_capture_cleared C st t h
      simp [this.1]
    · have h' : (st.pending && st.is_expired C t) = false := by
        simpa using h
      have hk := ensure_capture_kept C st t h'
      unfold State.is_expired at h' ⊢
      rw [hk.1, hk.2.1]
      exact h'
  have he : ((ensure_not_expired C st t).enrich_pending &&
      (ensure_not_expired C st t).enrich_is_expired C t) = false := by
    by_cases h : (st.enrich_pending && st.enrich_is_expired C t) = true
    · have := ensure_enrich_cleared C st t h
      simp [this.1]
    · have h' : (st.enrich_pending && st.enrich_is_expired C t) = false := by
        simpa using h
      have hk := ensure_enrich_kept C st t h'
      unfold State.enrich_is_expired at h' ⊢
      rw [hk.1, hk.2.1]
      exact h'
  exact ensure_eq_self_of_not C (ensure_not_expired C st t) t hc he

/-! ### Claim theorems -/

/-- C3 (amended): lazy expiry resets a pending slot, clearing all its
fields, exactly when the stored expiry is present, non-empty and either
unparsable or already reached; the same condition governs both slots; and
the pass is idempotent.  (The claim as frozen also demanded a reset for a
present-but-empty expiry string; the counterexample shows the code keeps
such a slot pending, because the Python truthiness test short-circuits
before parsing.) -/
theorem lazy_expiry_characterized (C : Clock) (st : State) (t : Int) :
    (st.pending = true →
      (((ensure_not_expired C st t).pending = false ∧
        (ensure_not_expired C st t).pending_until = none ∧
        (ensure_not_expired C st t).started_at = none ∧
        (ensure_not_expired C st t).user_id = none) ↔
        ExpiredCond C st.pending_until t)) ∧
    (st.enrich_pending = true →
      (((ensure_not_expired C st t).enrich_pending = false ∧
        (ensure_not_expired C st t).enrich_until = none ∧
        (ensure_not_expired C st t).enrich_user_id = none ∧
        (ensure_not_expired C st t).enrich_file = none ∧
        (ensure_not_expired C st t).enrich_idea_text = none) ↔
        ExpiredCond C st.enrich_until t)) ∧
    ensure_not_expired C (ensure_not_expired C st t) t = ensure_not_expired C st t := by
  refine ⟨fun hp => ?_, fun hp => ?_, ensure_not_expired_idem C st t⟩
  · by_cases he : st.is_expired C t = true
    · have hcond : (st.pending && st.is_expired C t) = true := by simp [hp, he]
      have hcl := ensure_capture_cleared C st t hcond
      have hex : ExpiredCond C st.pending_until t := by
        unfold State.is_expired at he
        rw [hp] at he
        exact (slotExpired_iff C st.pending_until t).mp he
      exact iff_of_true ⟨hcl.1, hcl.2.1, hcl.2.2.1, hcl.2.2.2⟩ hex
    · have hcond : (st.pending && st.is_expired C t) = false := by
        simp [Bool.eq_false_iff.mpr he]
      have hk := ensure_capture_kept C st t hcond
      refine iff_of_false (fun hcl => ?_) (fun hex => ?_)
      · rw [hk.1, hp] at hcl
        exact Bool.noConfusion hcl.1
      · apply he
        unfold State.is_expired
        rw [hp]
        exact (slotExpired_iff C st.pending_until t).mpr hex
  · by_cases he : st.enrich_is_expired C t = true
    · have hcond : (st.enrich_pending && st.enrich_is_expired C t) = true := by
        simp [hp, he]
      have hcl := ensure_enrich_cleared C st t hcond
      have hex : ExpiredCond C st.enrich_until t := by
        unfold State.enrich_is_expired at he
        rw [hp] at he
        exact (slotExpired_iff C st.enrich_until t).mp he
      exact iff_of_true ⟨hcl.1, hcl.2.1, hcl.2.2.1, hcl.2.2.2.1, hcl.2.2.2.2⟩ hex
    · have hcond : (st.enrich_pending && st.enrich_is_expired C t) = false := by
        simp [Bool.eq_false_iff.mpr he]
      have hk := ensure_enrich_kept C st t hcond
      refine iff_of_false (fun hcl => ?_) (fun hex => ?_)
      · rw [hk.1, hp] at hcl
        exact Bool.noConfusion hcl.1
      · apply he
        unfold State.enrich_is_expired
        rw [hp]
        exact (slotExpired_iff C st.enrich_until t).mpr hex

/-- C3 counterexample: a pending capture whose stored expiry is the
empty string — present but unparsable (`datetime.fromisoformat("")`
raises, modelled by `parse "" = none`) — is NOT reset by lazy expiry,
against the frozen claim. -/
theorem lazy_expiry_empty_until_cex :
    ({ pending := true, pending_until := some "" } : State).pending = true ∧
    ({ pending := true, pending_until := some "" } : State).pending_until = some "" ∧
    testClock.parse "" = none ∧
    (ensure_not_expired testClock { pending := true, pending_until := some "" } 0).pending
      = true :=
  ⟨rfl, rfl, rfl, rfl⟩

/-- C3 witness: the characterization applied to a concrete pending state
whose expiry has been reached. -/
theorem lazy_expiry_witness :
    stPend.pending = true ∧
    (((ensure_not_expired testClock stPend 200).pending = false ∧
      (ensure_not_expired testClock stPend 200).pending_until = none ∧
      (ensure_not_expired testClock stPend 200).started_at = none ∧
      (ensure_not_expired testClock stPend 200).user_id = none) ↔
      ExpiredCond testClock stPend.pending_until 200) :=
  ⟨rfl, (lazy_expiry_characterized testClock stPend 200).1 rfl⟩

/-- C10: a pending slot (either one) whose expiry field is null is never
considered expired and is left untouched by the lazy-expiry pass, at
every instant — it stays pending until explicitly cancelled, committed
or overwritten. -/
theorem null_expiry_never_expires (C : Clock) (st : State) (t : Int) :
    (st.pending_until = none →
      st.is_expired C t = false ∧
      (ensure_not_expired C st t).pending = st.pending ∧
      (ensure_not_expired C st t).pending_until = st.pending_until ∧
      (ensure_not_expired C st t).started_at = st.started_at ∧
      (ensure_not_expired C st t).user_id = st.user_id) ∧
    (st.enrich_until = none →
      st.enrich_is_expired C t = false ∧
      (ensure_not_expired C st t).enrich_pending = st.enrich_pending ∧
      (ensure_not_expired C st t).enrich_until = st.enrich_until ∧
      (ensure_not_expired C st t).enrich_user_id = st.enrich_user_id ∧
      (ensure_not_expired C st t).enrich_file = st.enrich_file ∧
      (ensure_not_expired C st t).enrich_idea_text = st.enrich_idea_text) := by
  constructor
  · intro h
    have he : st.is_expired C t = false := by
      unfold State.is_expired slotExpired
      rw [h]
      simp [strTruthy]
    exact ⟨he, ensure_capture_kept C st t (by simp [he])⟩
  · intro h
    have he : st.enrich_is_expired C t = false := by
      unfold State.enrich_is_expired slotExpired
      rw [h]
      simp [strTruthy]
    exact ⟨he, ensure_enrich_kept C st t (by simp [he])⟩

/-- C10 witness: a state with both slots pending and both expiry fields
null, evaluated at an arbitrary concrete instant. -/
theorem null_expiry_witness :
    ({ pending := true, enrich_pending := true } : State).pending_until = none ∧
    ({ pending := true, enrich_pending := true } : State).enrich_until = none ∧
    State.is_expired testClock { pending := true, enrich_pending := true } 1000000
      = false ∧
    (ensure_not_expired testClock { pending := true, enrich_pending := true }
        1000000).pending = true ∧
    State.enrich_is_expired testClock { pending := true, enrich_pending := true }
        1000000 = false ∧
    (ensure_not_expired testClock { pending := true, enrich_pending := true }
        1000000).enrich_pending = true := by
  have h := null_expiry_never_expires testClock
    { pending := true, enrich_pending := true } 1000000
  have h1 := h.1 rfl
  have h2 := h.2 rfl
  exact ⟨rfl, rfl, h1.1, by rw [h1.2.1], h2.1, by rw [h2.2.1]⟩

/-- C1: the error cases of `cmd_commit` — an inactive capture slot (after
lazy expiry) yields `ERR not_pending` with exit code 2 and no save; a
pending slot with two non-empty, differing owner ids yields
`ERR wrong_user` with exit code 3, no save (so the persisted state is
unchanged) and the in-memory slot still pending; an empty or absent
owner id on either side passes the owner check and the command succeeds. -/
theorem commit_error_cases (C : Clock) (dir : String) (st0 : State) (t0 tc : Int)
    (uid text : String) :
    ((ensure_not_expired C st0 t0).pending = false →
      cmd_commit C dir st0 t0 tc uid text =
        { newState := ensure_not_expired C st0 t0, savedState := none,
          lines := ["ERR not_pending"], exit := 2 }) ∧
    ((ensure_not_expired C st0 t0).pending = true →
      OwnerMismatch (ensure_not_expired C st0 t0) uid →
      cmd_commit C dir st0 t0 tc uid text =
        { newState := ensure_not_expired C st0 t0, savedState := none,
          lines := ["ERR wrong_user"], exit := 3 }) ∧
    ((ensure_not_expired C st0 t0).pending = true →
      ((ensure_not_expired C st0 t0).user_id = none ∨
       (ensure_not_expired C st0 t0).user_id = some "" ∨ uid = "") →
      (cmd_commit C dir st0 t0 tc uid text).exit = 0) := by
  refine ⟨fun hp => ?_, fun hp hm => ?_, fun hp hm => ?_⟩
  · unfold cmd_commit
    simp only [hp, Bool.not_false, if_true]
  · unfold cmd_commit
    simp only [hp, Bool.not_true, Bool.false_eq_true, if_false]
    rw [if_pos hm]
  · have hnm : ¬ OwnerMismatch (ensure_not_expired C st0 t0) uid := by
      rcases hm with h | h | h
      · rintro ⟨h1, -, -⟩
        rw [h] at h1
        simp [strTruthy] at h1
      · rintro ⟨h1, -, -⟩
        rw [h] at h1
        simp [strTruthy] at h1
      · rintro ⟨-, h2, -⟩
        exact h2 h
    unfold cmd_commit
    simp only [hp, Bool.not_true, Bool.false_eq_true, if_false]
    rw [if_neg hnm]

/-- C1 witness: a capture pending for u1 committed by u2 fails with
`wrong_user`, exit 3, not saved and still pending. -/
theorem commit_error_witness :
    (ensure_not_expired testClock stPend 0).pending = true ∧
    OwnerMismatch (ensure_not_expired testClock stPend 0) "u2" ∧
    cmd_commit testClock "/v" stPend 0 7 "u2" "x" =
      { newState := ensure_not_expired testClock stPend 0, savedState := none,
        lines := ["ERR wrong_user"], exit := 3 } :=
  ⟨by decide, by decide,
    (commit_error_cases testClock "/v" stPend 0 7 "u2" "x").2.1 (by decide) (by decide)⟩

/-- C2: `cmd_start` lazily expires the loaded state and then
unconditionally (for every prior state, pending or not — last start
wins) sets the capture slot pending with `started_at = now`,
`expires_at = now + timeout` and the given owner, saves the full state,
prints `OK pending_until=<iso>` and exits 0. -/
theorem start_sets_pending (C : Clock) (st0 : State) (t0 t1 : Int) (timeout : Int)
    (uid : String) :
    cmd_start C st0 t0 t1 timeout uid =
      { newState :=
          { ensure_not_expired C st0 t0 with
              pending := true, started_at := some (C.iso t1),
              pending_until := some (C.iso (t1 + timeout)), user_id := some uid },
        savedState :=
          some { ensure_not_expired C st0 t0 with
                   pending := true, started_at := some (C.iso t1),
                   pending_until := some (C.iso (t1 + timeout)), user_id := some uid },
        lines := ["OK pending_until=" ++ C.iso (t1 + timeout)], exit := 0 } := rfl

/-- C8 (amended): every state-handling command that completes its main
path writes the full (lazily expired, mutated) state back, and whatever
is written equals the final in-memory state; but `commit` ending in a
precondition error and `enrich-cancel` finding no pending enrichment
return without saving.  (The frozen claim said every invocation writes
back; the counterexample shows `enrich-cancel` on an empty state does
not.) -/
theorem save_behavior (C : Clock) (dir : String) (st : State) (t0 t1 : Int)
    (c : Cmd) :
    ((runCmd C dir st t0 t1 c).savedState = none ∨
     (runCmd C dir st t0 t1 c).savedState = some (runCmd C dir st t0 t1 c).newState) ∧
    ((runCmd C dir st t0 t1 c).savedState.isSome = true ↔
      SavesBack c (ensure_not_expired C st t0)) := by
  cases c with
  | start timeout uid => simp [runCmd, cmd_start, SavesBack]
  | cancel => simp [runCmd, cmd_cancel, SavesBack]
  | status => simp [runCmd, cmd_status, SavesBack]
  | commit uid text =>
    unfold runCmd cmd_commit SavesBack
    by_cases hp : (ensure_not_expired C st t0).pending = true
    · by_cases hm : OwnerMismatch (ensure_not_expired C st t0) uid
      · simp only [hp, Bool.not_true, Bool.false_eq_true, if_false]
        rw [if_pos hm]
        simp [hm]
      · simp only [hp, Bool.not_true, Bool.false_eq_true, if_false]
        rw [if_neg hm]
        simp [hp, hm]
    · have hp' : (ensure_not_expired C st t0).pending = false := by
        simpa using hp
      simp [hp', hp]
  | enrichStart timeout uid file idea_text =>
    simp [runCmd, cmd_enrich_start, SavesBack]
  | enrichCancel =>
    unfold runCmd cmd_enrich_cancel SavesBack
    by_cases hp : (ensure_not_expired C st t0).enrich_pending = true
    · simp [hp]
    · have hp' : (ensure_not_expired C st t0).enrich_pending = false := by
        simpa using hp
      simp [hp', hp]

/-- C8 counterexample: `enrich-cancel` on the empty state is a
state-handling invocation that finds nothing pending and returns without
writing the state file, against the frozen claim that every invocation
writes back. -/
theorem enrich_cancel_skips_save_cex :
    (runCmd testClock "/v" {} 0 0 Cmd.enrichCancel).savedState = none := rfl

/-- C7 (amended): `State.load` returns the zero-value state when the file
is missing or its contents fail to parse as JSON, and succeeds on every
JSON object; but contents that parse to a non-object JSON value reach
`data.get(...)` outside the try/except and raise `AttributeError`.  (The
frozen claim said load never raises even for valid JSON of the wrong
shape; the counterexample shows a JSON array raising.) -/
theorem load_total_characterization (loads : String → Option Json)
    (file : Option String) :
    (file = none → State.load loads file = Except.ok {}) ∧
    (∀ txt, file = some txt → loads txt = none →
      State.load loads file = Except.ok {}) ∧
    (∀ txt fields, file = some txt → loads txt = some (Json.obj fields) →
      ∃ st, State.load loads file = Except.ok st) ∧
    (∀ txt j, file = some txt → loads txt = some j →
      (∀ fields, j ≠ Json.obj fields) →
      State.load loads file = Except.error "AttributeError") := by
  refine ⟨fun h => ?_, fun txt h hl => ?_, fun txt fields h hl => ?_,
    fun txt j h hj hno => ?_⟩
  · subst h
    rfl
  · subst h
    simp only [State.load, hl]
  · subst h
    simp only [State.load, hl]
    exact ⟨_, rfl⟩
  · subst h
    cases j with
    | obj fields => exact absurd rfl (hno fields)
    | null => simp [State.load, hj]
    | bool b => simp [State.load, hj]
    | num n => simp [State.load, hj]
    | str s => simp [State.load, hj]
    | arr elems => simp [State.load, hj]

/-- C7 counterexample: a state file containing "[]" — valid JSON, not an
object — makes `State.load` raise `AttributeError` instead of returning
the zero-value state. -/
theorem load_raises_on_json_array_cex :
    State.load loadsArr (some "[]") = Except.error "AttributeError" := rfl

/-- C7 witness: the characterization applied to the concrete array input
and to a missing file. -/
theorem load_witness :
    loadsArr "[]" = some (Json.arr []) ∧
    State.load loadsArr (some "[]") = Except.error "AttributeError" ∧
    State.load loadsArr none = Except.ok {} :=
  ⟨rfl,
   (load_total_characterization loadsArr (some "[]")).2.2.2 "[]" (Json.arr [])
     rfl rfl (fun _ h => Json.noConfusion h),
   (load_total_characterization loadsArr none).1 rfl⟩

/-- C9: the `refs` command cannot perform the specified fetch at all —
`cmd_refs` passes the keyword arguments `sort` and `from_year`, which
`openalex.search` does not accept, so every invocation raises
`TypeError` before any request is made.  (Had the call succeeded, the
local filtering does drop books and metadata-poor records: the last
conjunct checks the spec scenario on the filtering loop.) -/
theorem refs_signature_mismatch :
    ("sort" ∈ cmdRefsCallArgs ∧ "sort" ∉ openalexSearchParams) ∧
    ("from_year" ∈ cmdRefsCallArgs ∧ "from_year" ∉ openalexSearchParams) ∧
    cmd_refs_select 5 [bookRef, bareRef, articleRef] = [articleRef] := by
  refine ⟨⟨?_, ?_⟩, ⟨?_, ?_⟩, ?_⟩ <;> decide

theorem slotInv_ensure (C : Clock) (st : State) (t : Int) (h : SlotInv C st) :
    SlotInv C (ensure_not_expired C st t) := by
  obtain ⟨h1, h2, h3⟩ := h
  refine ⟨fun hp => ?_, fun hp => ?_, fun hp => ?_⟩
  · by_cases hc : (st.pending && st.is_expired C t) = true
    · have hcl := ensure_capture_cleared C st t hc
      exact ⟨hcl.2.1, hcl.2.2.1, hcl.2.2.2⟩
    · have hk := ensure_capture_kept C st t (by simpa using hc)
      rw [hk.1] at hp
      rw [hk.2.1, hk.2.2.1, hk.2.2.2]
      exact h1 hp
  · by_cases hc : (st.enrich_pending && st.enrich_is_expired C t) = true
    · have hcl := ensure_enrich_cleared C st t hc
      exact ⟨hcl.2.1, hcl.2.2.1, hcl.2.2.2.1, hcl.2.2.2.2⟩
    · have hk := ensure_enrich_kept C st t (by simpa using hc)
      rw [hk.1] at hp
      rw [hk.2.1, hk.2.2.1, hk.2.2.2.1, hk.2.2.2.2]
      exact h2 hp
  · by_cases hc : (st.pending && st.is_expired C t) = true
    · have hcl := ensure_capture_cleared C st t hc
      rw [hcl.1] at hp
      exact Bool.noConfusion hp
    · have hk := ensure_capture_kept C st t (by simpa using hc)
      rw [hk.1] at hp
      obtain ⟨ts, tu, e1, e2, hlt⟩ := h3 hp
      exact ⟨ts, tu, by rw [hk.2.2.1, e1], by rw [hk.2.1, e2], hlt⟩

/-- C6 (amended): the data-model invariant — an inactive slot has all
fields null, and an active capture has its expiry strictly after its
start — is preserved by every state-handling command, for every owner id
and every POSITIVE timeout.  (The CLI accepts any integer timeout; the
counterexample shows `--timeout 0` writes back a state violating
strictness.) -/
theorem invariant_preserved (C : Clock) (dir : String) (st : State) (t0 t1 : Int)
    (c : Cmd) (hinv : SlotInv C st) (hpos : TimeoutsPos c) (st' : State)
    (hsave : (runCmd C dir st t0 t1 c).savedState = some st') :
    SlotInv C st' := by
  have hE := slotInv_ensure C st t0 hinv
  cases c with
  | start timeout uid =>
    simp only [runCmd, cmd_start, Option.some.injEq] at hsave
    subst hsave
    have hts : (1 : Int) ≤ timeout := hpos
    refine ⟨fun hp => Bool.noConfusion hp, fun hp => hE.2.1 hp,
      fun _ => ⟨t1, t1 + timeout, rfl, rfl, ?_⟩⟩
    omega
  | cancel =>
    simp only [runCmd, cmd_cancel, Option.some.injEq] at hsave
    subst hsave
    exact ⟨fun _ => ⟨rfl, rfl, rfl⟩, fun _ => ⟨rfl, rfl, rfl, rfl⟩,
      fun hp => Bool.noConfusion hp⟩
  | status =>
    simp only [runCmd, cmd_status, Option.some.injEq] at hsave
    subst hsave
    exact hE
  | commit uid text =>
    simp only [runCmd, cmd_commit] at hsave
    by_cases hp : (ensure_not_expired C st t0).pending = true
    · by_cases hm : OwnerMismatch (ensure_not_expired C st t0) uid
      · simp [hp, hm] at hsave
      · simp only [hp, Bool.not_true, Bool.false_eq_true, if_false] at hsave
        rw [if_neg hm] at hsave
        simp only [Option.some.injEq] at hsave
        subst hsave
        exact ⟨fun _ => ⟨rfl, rfl, rfl⟩, fun hpe => hE.2.1 hpe,
          fun hpc => Bool.noConfusion hpc⟩
    · have hp' : (ensure_not_expired C st t0).pending = false := by simpa using hp
      simp [hp'] at hsave
  | enrichStart timeout uid file idea_text =>
    simp only [runCmd, cmd_enrich_start, Option.some.injEq] at hsave
    subst hsave
    refine ⟨fun hp => ?_, fun hp => Bool.noConfusion hp, fun hp => ?_⟩
    · exact hE.1 hp
    · obtain ⟨ts, tu, e1, e2, hlt⟩ := hE.2.2 hp
      exact ⟨ts, tu, e1, e2, hlt⟩
  | enrichCancel =>
    simp only [runCmd, cmd_enrich_cancel] at hsave
    by_cases hp : (ensure_not_expired C st t0).enrich_pending = true
    · simp only [hp, Bool.not_true, Bool.false_eq_true, if_false,
        Option.some.injEq] at hsave
      subst hsave
      refine ⟨fun hpc => hE.1 hpc, fun _ => ⟨rfl, rfl, rfl, rfl⟩,
        fun hpc => ?_⟩
      obtain ⟨ts, tu, e1, e2, hlt⟩ := hE.2.2 hpc
      exact ⟨ts, tu, e1, e2, hlt⟩
    · have hp' : (ensure_not_expired C st t0).enrich_pending = false := by
        simpa using hp
      simp [hp'] at hsave

theorem unaryIso_eq_zero_of_empty {t : Int} (h : unaryIso t = "") : t = 0 := by
  unfold unaryIso at h
  by_cases hlt : t < 0
  · rw [if_pos hlt] at h
    have hd : ('-' :: List.replicate (-t).toNat 'a') = ([] : List Char) :=
      congrArg String.data h
    exact absurd hd (by simp)
  · rw [if_neg hlt] at h
    have hd : List.replicate t.toNat 'a' = ([] : List Char) :=
      congrArg String.data h
    rw [List.replicate_eq_nil_iff] at hd
    omega

/-- C6 counterexample: the CLI accepts `--timeout 0`; `start` with
timeout 0 on the empty state writes back an active capture whose
`expires_at` equals its `started_at`, violating the strictly-after
invariant of the frozen claim. -/
theorem start_timeout_zero_invariant_cex :
    SlotInv unaryClock ({} : State) ∧
    (cmd_start unaryClock {} 0 0 0 "u1").savedState =
      some (cmd_start unaryClock {} 0 0 0 "u1").newState ∧
    ¬ SlotInv unaryClock (cmd_start unaryClock {} 0 0 0 "u1").newState := by
  refine ⟨⟨fun _ => ⟨rfl, rfl, rfl⟩, fun _ => ⟨rfl, rfl, rfl, rfl⟩,
    fun hp => Bool.noConfusion hp⟩, rfl, ?_⟩
  rintro ⟨-, -, h3⟩
  obtain ⟨ts, tu, e1, e2, hlt⟩ := h3 rfl
  have hts : unaryIso ts = "" := by
    have e1' : (some "" : Option String) = some (unaryClock.iso ts) := e1
    exact (Option.some.inj e1').symm
  have htu : unaryIso tu = "" := by
    have e2' : (some "" : Option String) = some (unaryClock.iso tu) := e2
    exact (Option.some.inj e2').symm
  rw [unaryIso_eq_zero_of_empty hts, unaryIso_eq_zero_of_empty htu] at hlt
  exact absurd hlt (by decide)

/-- C6 witness: the preservation theorem applied to a concrete `start`
with the default timeout 120 from the empty state. -/
theorem invariant_preserved_witness :
    SlotInv testClock ({} : State) ∧
    TimeoutsPos (Cmd.start 120 "u1") ∧
    (runCmd testClock "/v" {} 0 0 (Cmd.start 120 "u1")).savedState =
      some (runCmd testClock "/v" {} 0 0 (Cmd.start 120 "u1")).newState ∧
    SlotInv testClock (runCmd testClock "/v" {} 0 0 (Cmd.start 120 "u1")).newState := by
  have hinv : SlotInv testClock ({} : State) :=
    ⟨fun _ => ⟨rfl, rfl, rfl⟩, fun _ => ⟨rfl, rfl, rfl, rfl⟩,
      fun hp => Bool.noConfusion hp⟩
  have hpos : TimeoutsPos (Cmd.start 120 "u1") := show (1 : Int) ≤ 120 by decide
  exact ⟨hinv, hpos, rfl,
    invariant_preserved testClock "/v" {} 0 0 (Cmd.start 120 "u1") hinv hpos _ rfl⟩

/-! ### Character-class lemmas -/

theorem isDash_eq_dash {c : Char} (h : isDash c = true) : c = '-' := by
  have h45 : c.toNat = 45 := by simpa [isDash] using h
  have h2 := congrArg Char.ofNat h45
  rw [Char.ofNat_toNat] at h2
  exact h2.trans (by rfl)

theorem slugChar_facts {c : Char} (h : slugChar c = true) :
    isPySpace c = false ∧ keepChar c = true ∧ spaceUnd c = false ∧ pyToLower c = c := by
  simp only [slugChar, isLowerDigit, isDash, Bool.or_eq_true, Bool.and_eq_true,
    decide_eq_true_eq] at h
  refine ⟨?_, ?_, ?_, ?_⟩
  · simp [isPySpace]
    omega
  · simp [keepChar, isLowerDigit, isPySpace, isDash]
    omega
  · simp [spaceUnd, isPySpace]
    omega
  · unfold pyToLower
    rw [if_neg (by omega)]

theorem pyToLower_eq_self_of_not_alnum {c : Char} (h : pyIsAlnum c = false) :
    pyToLower c = c := by
  simp [pyIsAlnum] at h
  unfold pyToLower
  rw [if_neg (by omega)]

theorem spaceUnd_or_dash_of_keep_not_alnum {c : Char} (hk : keepChar c = true)
    (ha : pyIsAlnum c = false) : spaceUnd c = true ∨ isDash c = true := by
  simp [keepChar, isLowerDigit, isPySpace, isDash] at hk
  simp [pyIsAlnum] at ha
  simp [spaceUnd, isPySpace, isDash]
  omega

theorem slugChar_of_keep_not_spaceUnd {c : Char} (h1 : keepChar c = true)
    (h2 : spaceUnd c = false) : slugChar c = true := by
  simp [keepChar, isLowerDigit, isPySpace, isDash] at h1
  simp [spaceUnd, isPySpace] at h2
  simp [slugChar, isLowerDigit, isDash]
  omega

/-! ### dropWhile and dropEnds lemmas -/

theorem head_dropWhile_false {p : Char → Bool} {l : List Char} {c : Char}
    (h : (l.dropWhile p).head? = some c) : p c = false := by
  have h2 := List.head?_dropWhile_not p l
  rw [h] at h2
  exact h2

theorem getLast?_dropWhile {p : Char → Bool} :
    ∀ {l : List Char}, l.dropWhile p ≠ [] → (l.dropWhile p).getLast? = l.getLast? := by
  intro l
  induction l with
  | nil => intro h; exact absurd rfl h
  | cons a cs ih =>
    intro h
    by_cases hpa : p a = true
    · rw [List.dropWhile_cons_of_pos hpa] at h ⊢
      have hcs : cs ≠ [] := by
        intro he
        subst he
        exact h rfl
      rw [ih h]
      cases cs with
      | nil => exact absurd rfl hcs
      | cons b bs => rw [List.getLast?_cons_cons]
    · rw [List.dropWhile_cons_of_neg hpa]

theorem mem_dropEnds {p : Char → Bool} {l : List Char} {c : Char}
    (h : c ∈ dropEnds p l) : c ∈ l := by
  unfold dropEnds at h
  rw [List.mem_reverse] at h
  have h1 := List.Sublist.mem h (List.dropWhile_sublist p)
  rw [List.mem_reverse] at h1
  exact List.Sublist.mem h1 (List.dropWhile_sublist p)

theorem length_dropEnds_le {p : Char → Bool} (l : List Char) :
    (dropEnds p l).length ≤ l.length := by
  unfold dropEnds
  rw [List.length_reverse]
  calc (List.dropWhile p (l.dropWhile p).reverse).length
      ≤ (l.dropWhile p).reverse.length := (List.dropWhile_sublist p).length_le
    _ = (l.dropWhile p).length := List.length_reverse _
    _ ≤ l.length := (List.dropWhile_sublist p).length_le

theorem head?_dropEnds {p : Char → Bool} {l : List Char} {c : Char}
    (h : (dropEnds p l).head? = some c) : p c = false := by
  unfold dropEnds at h
  rw [List.head?_reverse] at h
  by_cases hX : List.dropWhile p (l.dropWhile p).reverse = []
  · rw [hX] at h
    cases h
  · rw [getLast?_dropWhile hX, List.getLast?_reverse] at h
    exact head_dropWhile_false h

theorem getLast?_dropEnds {p : Char → Bool} {l : List Char} {c : Char}
    (h : (dropEnds p l).getLast? = some c) : p c = false := by
  unfold dropEnds at h
  rw [List.getLast?_reverse] at h
  exact head_dropWhile_false h

theorem chain'_dropWhile {R : Char → Char → Prop} {p : Char → Bool} :
    ∀ {l : List Char}, List.Chain' R l → List.Chain' R (l.dropWhile p) := by
  intro l
  induction l with
  | nil => intro h; exact h
  | cons a cs ih =>
    intro h
    by_cases hpa : p a = true
    · rw [List.dropWhile_cons_of_pos hpa]
      exact ih (List.chain'_cons'.mp h).2
    · rw [List.dropWhile_cons_of_neg hpa]
      exact h

theorem chain'_dropEnds {R : Char → Char → Prop} (hsym : ∀ a b, R a b → R b a)
    {p : Char → Bool} {l : List Char} (h : List.Chain' R l) :
    List.Chain' R (dropEnds p l) := by
  unfold dropEnds
  have h1 : List.Chain' R (l.dropWhile p) := chain'_dropWhile h
  have h2 : List.Chain' R (l.dropWhile p).reverse :=
    List.chain'_reverse.mpr (h1.imp (fun a b hab => hsym a b hab))
  have h3 : List.Chain' R (List.dropWhile p (l.dropWhile p).reverse) :=
    chain'_dropWhile h2
  exact List.chain'_reverse.mpr (h3.imp (fun a b hab => hsym a b hab))

theorem dropWhile_eq_self_of_all {p : Char → Bool} {l : List Char}
    (h : ∀ c ∈ l, p c = false) : l.dropWhile p = l := by
  cases l with
  | nil => rfl
  | cons a ls =>
    exact List.dropWhile_cons_of_neg (by simp [h a (List.mem_cons_self a ls)])

theorem dropEnds_eq_self_of_all {p : Char → Bool} {l : List Char}
    (h : ∀ c ∈ l, p c = false) : dropEnds p l = l := by
  unfold dropEnds
  rw [dropWhile_eq_self_of_all h,
    dropWhile_eq_self_of_all (fun c hc => h c (List.mem_reverse.mp hc)),
    List.reverse_reverse]

theorem dropEnds_eq_self_of_ends {p : Char → Bool} {l : List Char}
    (hh : ∀ c, l.head? = some c → p c = false)
    (hl : ∀ c, l.getLast? = some c → p c = false) : dropEnds p l = l := by
  unfold dropEnds
  have h1 : l.dropWhile p = l := by
    cases l with
    | nil => rfl
    | cons a ls => exact List.dropWhile_cons_of_neg (by simp [hh a rfl])
  rw [h1]
  have h2 : l.reverse.dropWhile p = l.reverse := by
    cases hrev : l.reverse with
    | nil => rfl
    | cons a ls =>
      have hga : l.getLast? = some a := by
        rw [← List.head?_reverse, hrev, List.head?_cons]
      exact List.dropWhile_cons_of_neg (by simp [hl a hga])
  rw [h2, List.reverse_reverse]

theorem dropEnds_head_of_not {p : Char → Bool} {l : List Char} {c : Char}
    (hc : l.head? = some c) (hpc : p c = false) :
    dropEnds p l ≠ [] ∧ (dropEnds p l).head? = some c := by
  cases l with
  | nil => cases hc
  | cons a ls =>
    rw [List.head?_cons] at hc
    injection hc with hac
    subst hac
    have h1 : List.dropWhile p (a :: ls) = a :: ls :=
      List.dropWhile_cons_of_neg (by simp [hpc])
    unfold dropEnds
    rw [h1]
    have hX : List.dropWhile p (a :: ls).reverse ≠ [] := by
      intro hX
      have h2 := List.dropWhile_eq_nil_iff.mp hX a
        (List.mem_reverse.mpr (List.mem_cons_self a ls))
      rw [hpc] at h2
      cases h2
    refine ⟨by simpa [List.reverse_eq_nil_iff] using hX, ?_⟩
    rw [List.head?_reverse, getLast?_dropWhile hX, List.getLast?_reverse,
      List.head?_cons]

theorem mem_of_mem_take {l : List Char} {n : Nat} {c : Char} (h : c ∈ l.take n) :
    c ∈ l :=
  List.Sublist.mem h (List.take_sublist n l)

/-! ### collapseRuns lemmas -/

theorem mem_collapseRunsGo {p : Char → Bool} {r : Char} :
    ∀ {l : List Char} {b : Bool} {c : Char}, c ∈ collapseRunsGo p r l b →
      c = r ∨ (c ∈ l ∧ p c = false) := by
  intro l
  induction l with
  | nil =>
    intro b c h
    simp [collapseRunsGo] at h
  | cons a cs ih =>
    intro b c h
    unfold collapseRunsGo at h
    split at h
    · split at h
      · rcases ih h with h1 | h2
        · exact Or.inl h1
        · exact Or.inr ⟨List.mem_cons_of_mem a h2.1, h2.2⟩
      · rcases List.mem_cons.mp h with h1 | h1
        · exact Or.inl h1
        · rcases ih h1 with h2 | h2
          · exact Or.inl h2
          · exact Or.inr ⟨List.mem_cons_of_mem a h2.1, h2.2⟩
    · rename_i hpa
      rcases List.mem_cons.mp h with h1 | h1
      · rw [h1]
        exact Or.inr ⟨List.mem_cons_self a cs, by simpa using hpa⟩
      · rcases ih h1 with h2 | h2
        · exact Or.inl h2
        · exact Or.inr ⟨List.mem_cons_of_mem a h2.1, h2.2⟩

theorem collapseRunsGo_eq_self {p : Char → Bool} {r : Char} :
    ∀ {l : List Char} {b : Bool}, (∀ c ∈ l, p c = false) →
      collapseRunsGo p r l b = l := by
  intro l
  induction l with
  | nil => intro b _; rfl
  | cons a cs ih =>
    intro b hall
    unfold collapseRunsGo
    rw [if_neg (by simp [hall a (List.mem_cons_self a cs)])]
    rw [ih (fun c hc => hall c (List.mem_cons_of_mem a hc))]

theorem collapseRunsGo_all_true {p : Char → Bool} {r : Char} :
    ∀ {l : List Char}, (∀ c ∈ l, p c = true) → collapseRunsGo p r l true = [] := by
  intro l
  induction l with
  | nil => intro _; rfl
  | cons a cs ih =>
    intro hall
    unfold collapseRunsGo
    rw [if_pos (hall a (List.mem_cons_self a cs))]
    exact ih (fun c hc => hall c (List.mem_cons_of_mem a hc))

theorem collapseRunsGo_all_false {p : Char → Bool} {r : Char} {l : List Char}
    (hall : ∀ c ∈ l, p c = true) (hne : l ≠ []) :
    collapseRunsGo p r l false = [r] := by
  cases l with
  | nil => exact absurd rfl hne
  | cons a cs =>
    unfold collapseRunsGo
    rw [if_pos (hall a (List.mem_cons_self a cs))]
    rw [collapseRunsGo_all_true (fun c hc => hall c (List.mem_cons_of_mem a hc))]
    rfl

theorem head?_collapseRunsGo_true {p : Char → Bool} {r : Char} :
    ∀ {l : List Char} {c : Char}, (collapseRunsGo p r l true).head? = some c →
      p c = false := by
  intro l
  induction l with
  | nil =>
    intro c h
    cases h
  | cons a cs ih =>
    intro c h
    unfold collapseRunsGo at h
    split at h
    · exact ih h
    · rename_i hpa
      rw [List.head?_cons] at h
      injection h with hac
      subst hac
      simpa using hpa

theorem chain'_collapseRunsGo {p : Char → Bool} {r : Char} :
    ∀ (l : List Char) (b : Bool),
      List.Chain' (fun a c => ¬(p a = true ∧ p c = true)) (collapseRunsGo p r l b) := by
  intro l
  induction l with
  | nil => intro b; exact List.chain'_nil
  | cons a cs ih =>
    intro b
    unfold collapseRunsGo
    split
    · split
      · exact ih true
      · refine List.chain'_cons'.mpr ⟨?_, ih true⟩
        intro y hy hcon
        have hy' : (collapseRunsGo p r cs true).head? = some y := Option.mem_def.mp hy
        have := head?_collapseRunsGo_true hy'
        rw [this] at hcon
        cases hcon.2
    · rename_i hpa
      refine List.chain'_cons'.mpr ⟨?_, ih false⟩
      intro y hy hcon
      exact hpa hcon.1

theorem collapseRunsGo_id {p : Char → Bool} {r : Char}
    (hr : ∀ c, p c = true → c = r) :
    ∀ (l : List Char), List.Chain' (fun a c => ¬(p a = true ∧ p c = true)) l →
      (collapseRunsGo p r l false = l ∧
       ((∀ c, l.head? = some c → p c = false) → collapseRunsGo p r l true = l)) := by
  intro l
  induction l with
  | nil => exact fun _ => ⟨rfl, fun _ => rfl⟩
  | cons a cs ih =>
    intro hch
    have hch' := List.chain'_cons'.mp hch
    have ihcs := ih hch'.2
    constructor
    · unfold collapseRunsGo
      by_cases hpa : p a = true
      · rw [if_pos hpa]
        have hhead : ∀ c, cs.head? = some c → p c = false := by
          intro c hc
          have h2 := hch'.1 c (Option.mem_def.mpr hc)
          by_contra hcc
          exact h2 ⟨hpa, by simpa using hcc⟩
        rw [ihcs.2 hhead, hr a hpa]
        rfl
      · rw [if_neg hpa, ihcs.1]
    · intro hhd
      unfold collapseRunsGo
      have hpa : p a = false := hhd a List.head?_cons
      rw [if_neg (by simp [hpa]), ihcs.1]

/-! ### Slug shape lemmas and the slugify claim -/

theorem map_eq_self_of {f : Char → Char} :
    ∀ {l : List Char}, (∀ c ∈ l, f c = c) → l.map f = l := by
  intro l
  induction l with
  | nil => intro _; rfl
  | cons a cs ih =>
    intro h
    rw [List.map_cons, h a (List.mem_cons_self a cs),
      ih (fun c hc => h c (List.mem_cons_of_mem a hc))]

theorem goodSlug_idea : GoodSlug ("idea".data) := by
  refine ⟨by decide, by decide, by decide, ?_, ?_, ?_⟩
  · simp [List.chain'_cons, isDash]
  · intro c h
    rw [show ("idea".data).head? = some 'i' from rfl] at h
    injection h with h
    rw [← h]
    rfl
  · intro c h
    rw [show ("idea".data).getLast? = some 'a' from rfl] at h
    injection h with h
    rw [← h]
    rfl

theorem preSlug_facts (l : List Char) :
    (∀ c ∈ preSlug l, slugChar c = true) ∧
    List.Chain' (fun a b => ¬(isDash a = true ∧ isDash b = true)) (preSlug l) ∧
    (∀ c, (preSlug l).head? = some c → isDash c = false) ∧
    (∀ c, (preSlug l).getLast? = some c → isDash c = false) := by
  have hf : ∀ c ∈ ((dropEnds isPySpace l).map pyToLower).filter keepChar,
      keepChar c = true := fun c hc => (List.mem_filter.mp hc).2
  have hc1 : ∀ c ∈ collapseRuns spaceUnd '-'
      (((dropEnds isPySpace l).map pyToLower).filter keepChar), slugChar c = true := by
    intro c hc
    rcases mem_collapseRunsGo hc with h1 | ⟨h2, h3⟩
    · rw [h1]
      rfl
    · exact slugChar_of_keep_not_spaceUnd (hf c h2) h3
  have hc2 : ∀ c ∈ collapseRuns isDash '-' (collapseRuns spaceUnd '-'
      (((dropEnds isPySpace l).map pyToLower).filter keepChar)), slugChar c = true := by
    intro c hc
    rcases mem_collapseRunsGo hc with h1 | ⟨h2, -⟩
    · rw [h1]
      rfl
    · exact hc1 c h2
  have hch2 : List.Chain' (fun a b => ¬(isDash a = true ∧ isDash b = true))
      (collapseRuns isDash '-' (collapseRuns spaceUnd '-'
        (((dropEnds isPySpace l).map pyToLower).filter keepChar))) :=
    chain'_collapseRunsGo _ false
  exact ⟨fun c hc => hc2 c (mem_dropEnds hc),
    chain'_dropEnds (fun a b hab h2 => hab ⟨h2.2, h2.1⟩) hch2,
    fun c hc => head?_dropEnds hc, fun c hc => getLast?_dropEnds hc⟩

theorem goodSlug_slugifyL (l : List Char) : GoodSlug (slugifyL l) := by
  obtain ⟨hchars, hchain, hhead, hlast⟩ := preSlug_facts l
  unfold slugifyL
  by_cases hte : preSlug l = []
  · rw [if_pos hte]
    exact goodSlug_idea
  · rw [if_neg hte]
    obtain ⟨c0, ts, ht⟩ : ∃ c0 ts, preSlug l = c0 :: ts := by
      cases hpre : preSlug l with
      | nil => exact absurd hpre hte
      | cons a as => exact ⟨a, as, rfl⟩
    have hc0 : isDash c0 = false := hhead c0 (by rw [ht, List.head?_cons])
    have htake_head : ((preSlug l).take 60).head? = some c0 := by
      rw [ht, show (60 : Nat) = 59 + 1 from rfl, List.take_succ_cons, List.head?_cons]
    obtain ⟨hne, hhd⟩ := dropEnds_head_of_not htake_head hc0
    refine ⟨hne, ?_, ?_, ?_, ?_, ?_⟩
    · calc (dropEnds isDash ((preSlug l).take 60)).length
          ≤ ((preSlug l).take 60).length := length_dropEnds_le _
        _ ≤ 60 := by
            rw [List.length_take]
            exact min_le_left _ _
    · exact fun c hc => hchars c (mem_of_mem_take (mem_dropEnds hc))
    · exact chain'_dropEnds (fun a b hab h2 => hab ⟨h2.2, h2.1⟩) (hchain.take 60)
    · intro c hc
      rw [hhd] at hc
      injection hc with hc
      rw [← hc]
      exact hc0
    · exact fun c hc => getLast?_dropEnds hc

theorem slugifyL_goodSlug_id {l : List Char} (h : GoodSlug l) : slugifyL l = l := by
  have hpre : preSlug l = l := by
    unfold preSlug
    have hsp : ∀ c ∈ l, isPySpace c = false :=
      fun c hc => (slugChar_facts (h.chars c hc)).1
    have hlow : ∀ c ∈ l, pyToLower c = c :=
      fun c hc => (slugChar_facts (h.chars c hc)).2.2.2
    have hkp : ∀ c ∈ l, keepChar c = true :=
      fun c hc => (slugChar_facts (h.chars c hc)).2.1
    have hsu : ∀ c ∈ l, spaceUnd c = false :=
      fun c hc => (slugChar_facts (h.chars c hc)).2.2.1
    rw [dropEnds_eq_self_of_all hsp, map_eq_self_of hlow,
      List.filter_eq_self.mpr hkp,
      show collapseRuns spaceUnd '-' l = l from collapseRunsGo_eq_self hsu,
      show collapseRuns isDash '-' l = l from
        (collapseRunsGo_id (fun c hc => isDash_eq_dash hc) l h.chain).1]
    exact dropEnds_eq_self_of_ends h.headOk h.lastOk
  unfold slugifyL
  rw [hpre, if_neg h.ne, List.take_of_length_le h.len]
  exact dropEnds_eq_self_of_ends h.headOk h.lastOk

/-- C5: `slugify` is idempotent on its own output, its output never
exceeds 60 characters, and an input that is empty or contains no
alphanumeric character (all punctuation) yields the literal slug
"idea". -/
theorem slugify_props (s : String) :
    slugify (slugify s) = slugify s ∧
    (slugify s).length ≤ 60 ∧
    ((∀ c ∈ s.data, pyIsAlnum c = false) → slugify s = "idea") := by
  refine ⟨?_, ?_, ?_⟩
  · show String.mk (slugifyL (slugifyL s.data)) = String.mk (slugifyL s.data)
    rw [slugifyL_goodSlug_id (goodSlug_slugifyL s.data)]
  · show (slugifyL s.data).length ≤ 60
    exact (goodSlug_slugifyL s.data).len
  · intro h
    show String.mk (slugifyL s.data) = "idea"
    have hm1 : ∀ c ∈ dropEnds isPySpace s.data, pyIsAlnum c = false :=
      fun c hc => h c (mem_dropEnds hc)
    have hm : ∀ c ∈ (dropEnds isPySpace s.data).map pyToLower,
        pyIsAlnum c = false := by
      intro c hc
      obtain ⟨c0, hc0, hfc⟩ := List.mem_map.mp hc
      rw [← hfc, pyToLower_eq_self_of_not_alnum (hm1 c0 hc0)]
      exact hm1 c0 hc0
    have hc1 : ∀ c ∈ collapseRuns spaceUnd '-'
        (((dropEnds isPySpace s.data).map pyToLower).filter keepChar),
        isDash c = true := by
      intro c hc
      rcases mem_collapseRunsGo hc with h1 | ⟨h2, h3⟩
      · rw [h1]
        rfl
      · have hk := (List.mem_filter.mp h2).2
        have ha := hm c (List.mem_filter.mp h2).1
        rcases spaceUnd_or_dash_of_keep_not_alnum hk ha with h4 | h4
        · rw [h4] at h3
          cases h3
        · exact h4
    unfold slugifyL preSlug
    by_cases he : collapseRuns spaceUnd '-'
        (((dropEnds isPySpace s.data).map pyToLower).filter keepChar) = []
    · rw [he]
      rfl
    · rw [show collapseRuns isDash '-' (collapseRuns spaceUnd '-'
        (((dropEnds isPySpace s.data).map pyToLower).filter keepChar)) = ['-'] from
        collapseRunsGo_all_false hc1 he]
      rfl

/-- C5 witness: all three properties evaluated at the all-punctuation
input "?!". -/
theorem slugify_props_witness :
    (∀ c ∈ ("?!" : String).data, pyIsAlnum c = false) ∧
    slugify "?!" = "idea" ∧
    slugify (slugify "?!") = slugify "?!" ∧
    (slugify "?!").length ≤ 60 :=
  ⟨by decide, (slugify_props "?!").2.2 (by decide), (slugify_props "?!").1,
    (slugify_props "?!").2.1⟩

/-- C4: the success path of `cmd_commit` — for a pending capture owned by
the caller (or with no recorded owner), commit writes the file
`<ideas_dir>/<stamp>_<slug>.md` where the slug comes from the title
basis (first line of the stripped text, or "idea" when blank), with
contents produced by `build_markdown`; it clears the capture slot,
records `last_file` and `last_idea_text`, saves, and prints the path and
the stripped title truncated to 120 characters; the front matter
carries the committing caller's id as `telegram_user_id`, and the body
is the right-stripped text plus a newline. -/
theorem commit_success (C : Clock) (dir : String) (st0 : State) (t0 tc : Int)
    (uid text : String)
    (hp : (ensure_not_expired C st0 t0).pending = true)
    (howner : (ensure_not_expired C st0 t0).user_id = some uid ∨
              (ensure_not_expired C st0 t0).user_id = none ∨
              (ensure_not_expired C st0 t0).user_id = some "") :
    cmd_commit C dir st0 t0 tc uid text =
      { newState := { ensure_not_expired C st0 t0 with
          pending := false, pending_until := none, started_at := none,
          user_id := none,
          last_file := some (dir ++ "/" ++
            (C.stamp tc ++ "_" ++ slugify (titleBasis text) ++ ".md")),
          last_idea_text := some text },
        savedState := some { ensure_not_expired C st0 t0 with
          pending := false, pending_until := none, started_at := none,
          user_id := none,
          last_file := some (dir ++ "/" ++
            (C.stamp tc ++ "_" ++ slugify (titleBasis text) ++ ".md")),
          last_idea_text := some text },
        written := some (dir ++ "/" ++
            (C.stamp tc ++ "_" ++ slugify (titleBasis text) ++ ".md"),
          build_markdown C tc uid text (C.iso tc ++ "-" ++ C.frac tc)),
        lines := ["OK saved",
          "FILE " ++ (dir ++ "/" ++
            (C.stamp tc ++ "_" ++ slugify (titleBasis text) ++ ".md")),
          "TITLE " ++ String.mk ((pyStrip (titleBasis text)).data.take 120)],
        exit := 0 } ∧
    ("telegram_user_id: " ++ uid) ∈ fmLines C tc uid (C.iso tc ++ "-" ++ C.frac tc) ∧
    build_markdown C tc uid text (C.iso tc ++ "-" ++ C.frac tc) =
      String.intercalate "\n" (fmLines C tc uid (C.iso tc ++ "-" ++ C.frac tc)) ++
        (pyRstrip text ++ "\n") ∧
    (pyStrip text = "" → titleBasis text = "idea") := by
  have hnm : ¬ OwnerMismatch (ensure_not_expired C st0 t0) uid := by
    rcases howner with h | h | h
    · rintro ⟨-, -, h3⟩
      exact h3 h
    · rintro ⟨h1, -, -⟩
      rw [h] at h1
      simp [strTruthy] at h1
    · rintro ⟨h1, -, -⟩
      rw [h] at h1
      simp [strTruthy] at h1
  refine ⟨?_, by simp [fmLines], rfl, fun hb => by unfold titleBasis; rw [if_pos hb]⟩
  unfold cmd_commit
  simp only [hp, Bool.not_true, Bool.false_eq_true, if_false]
  rw [if_neg hnm]

/-- C4 witness: the end-to-end example of the spec — a capture pending
for u1 committed by u1 with the text "Build a faster cache\nmore detail". -/
theorem commit_success_witness :
    (ensure_not_expired testClock stPend 0).pending = true ∧
    (ensure_not_expired testClock stPend 0).user_id = some "u1" ∧
    (cmd_commit testClock "/vault/ideas" stPend 0 7 "u1"
        "Build a faster cache\nmore detail").written =
      some ("/vault/ideas/7_build-a-faster-cache.md",
        build_markdown testClock 7 "u1" "Build a faster cache\nmore detail" "7-7") ∧
    (cmd_commit testClock "/vault/ideas" stPend 0 7 "u1"
        "Build a faster cache\nmore detail").newState.pending = false ∧
    (cmd_commit testClock "/vault/ideas" stPend 0 7 "u1"
        "Build a faster cache\nmore detail").newState.last_file =
      some "/vault/ideas/7_build-a-faster-cache.md" ∧
    (cmd_commit testClock "/vault/ideas" stPend 0 7 "u1"
        "Build a faster cache\nmore detail").lines =
      ["OK saved", "FILE /vault/ideas/7_build-a-faster-cache.md",
       "TITLE Build a faster cache"] ∧
    (cmd_commit testClock "/vault/ideas" stPend 0 7 "u1"
        "Build a faster cache\nmore detail").exit = 0 := by
  have h := (commit_success testClock "/vault/ideas" stPend 0 7 "u1"
    "Build a faster cache\nmore detail" (by decide) (Or.inl (by decide))).1
  refine ⟨by decide, by decide, ?_, ?_, ?_, ?_, ?_⟩ <;> rw [h] <;> decide

end IdeaInbox
